import Mathlib

set_option linter.unusedVariables false

/- Shallow embedding of the TanzoLang Monte Carlo simulation core:
   the first document of src/clients/typescript/src/simulator.ts
   (sampleDistribution, simulateAttribute, simulateProfileOnce,
   calculateStats, simulateProfile), the seeded simulation entry point of
   src/clients/typescript/src/utils.ts, the Zod distribution schema of
   src/examples/integrations/typescript-validator.ts, and the distribution
   constraints of src/clients/python/tanzo_schema/schema/tanzo-schema.json.

   JavaScript numbers are modelled as exact rationals extended with the
   special values NaN, Infinity and -Infinity; `undefined` (the result of an
   out-of-bounds array read) is a separate value whose arithmetic coerces to
   NaN.  The transcendental functions of the host Math object (log, cos,
   sqrt) and the constant Math.PI are implementation-approximated in
   ECMAScript, so they are fields of an abstract platform structure
   `JSMath`; the special-value cases that ECMAScript pins exactly
   (log 0 = -Infinity, log of a negative is NaN, sqrt of a negative is NaN,
   cos 0 = 1, and NaN/Infinity propagation) are implemented in wrappers or
   required as platform properties. -/

/-- A JavaScript number: a finite rational or one of the special values. -/
inductive JSQ where
  | num (q : ℚ)
  | nan
  | inf
  | ninf
deriving DecidableEq

/-- JavaScript `+` on numbers (the special-value arms follow IEEE 754). -/
def jsAdd : JSQ → JSQ → JSQ
  | .nan, _ => .nan
  | _, .nan => .nan
  | .inf, .ninf => .nan
  | .ninf, .inf => .nan
  | .inf, _ => .inf
  | _, .inf => .inf
  | .ninf, _ => .ninf
  | _, .ninf => .ninf
  | .num a, .num b => .num (a + b)

/-- JavaScript `-` on numbers. -/
def jsSub : JSQ → JSQ → JSQ
  | .nan, _ => .nan
  | _, .nan => .nan
  | .inf, .inf => .nan
  | .ninf, .ninf => .nan
  | .inf, _ => .inf
  | _, .inf => .ninf
  | .ninf, _ => .ninf
  | _, .ninf => .inf
  | .num a, .num b => .num (a - b)

/-- JavaScript `*` on numbers. -/
def jsMul : JSQ → JSQ → JSQ
  | .nan, _ => .nan
  | _, .nan => .nan
  | .inf, .inf => .inf
  | .inf, .ninf => .ninf
  | .ninf, .inf => .ninf
  | .ninf, .ninf => .inf
  | .inf, .num b => if b = 0 then .nan else if 0 < b then .inf else .ninf
  | .num a, .inf => if a = 0 then .nan else if 0 < a then .inf else .ninf
  | .ninf, .num b => if b = 0 then .nan else if 0 < b then .ninf else .inf
  | .num a, .ninf => if a = 0 then .nan else if 0 < a then .ninf else .inf
  | .num a, .num b => .num (a * b)

/-- JavaScript `/` on numbers (division by zero yields NaN or a signed
infinity, never a rational junk value). -/
def jsDiv : JSQ → JSQ → JSQ
  | .nan, _ => .nan
  | _, .nan => .nan
  | .inf, .inf => .nan
  | .inf, .ninf => .nan
  | .ninf, .inf => .nan
  | .ninf, .ninf => .nan
  | .inf, .num b => if b < 0 then .ninf else .inf
  | .ninf, .num b => if b < 0 then .inf else .ninf
  | .num _, .inf => .num 0
  | .num _, .ninf => .num 0
  | .num a, .num b =>
      if b = 0 then (if a = 0 then .nan else if 0 < a then .inf else .ninf)
      else .num (a / b)

/-- JavaScript `/` where both operands are known finite numbers. -/
def jsDivQ (a b : ℚ) : JSQ :=
  if b = 0 then (if a = 0 then .nan else if 0 < a then .inf else .ninf)
  else .num (a / b)

/-- JavaScript `<` on numbers: every comparison with NaN is false. -/
def jsLtB : JSQ → JSQ → Bool
  | .nan, _ => false
  | _, .nan => false
  | .ninf, .ninf => false
  | .ninf, _ => true
  | _, .ninf => false
  | .inf, _ => false
  | _, .inf => true
  | .num a, .num b => decide (a < b)

/-- JavaScript Math.min of two numbers (NaN absorbs). -/
def jsMin : JSQ → JSQ → JSQ
  | .nan, _ => .nan
  | _, .nan => .nan
  | a, b => if jsLtB b a then b else a

/-- JavaScript Math.max of two numbers (NaN absorbs). -/
def jsMax : JSQ → JSQ → JSQ
  | .nan, _ => .nan
  | _, .nan => .nan
  | a, b => if jsLtB a b then b else a

/-- JavaScript truthiness of a number: 0 and NaN are falsy. -/
def jsTruthy : JSQ → Bool
  | .num q => decide (q ≠ 0)
  | .nan => false
  | .inf => true
  | .ninf => true

/-- Ordering used to model `Array.prototype.sort` with the comparator
`(a, b) => a - b`.  On NaN-free input this is the comparator's ascending
numeric order; the comparator is inconsistent when NaN is present (its
result is then NaN, which the ECMAScript sort treats as 0), so NaN is
placed first by convention.  The theorems below only evaluate the sort on
NaN-free or empty lists. -/
def jsLeB : JSQ → JSQ → Bool
  | .nan, _ => true
  | _, .nan => false
  | .ninf, _ => true
  | _, .ninf => false
  | .num a, .num b => decide (a ≤ b)
  | _, .inf => true
  | .inf, _ => false

/-- Insertion step of the sort model. -/
def jsSortInsert (x : JSQ) : List JSQ → List JSQ
  | [] => [x]
  | y :: t => if jsLeB x y then x :: y :: t else y :: jsSortInsert x t

/-- Model of `[...values].sort((a, b) => a - b)`. -/
def jsSortNums : List JSQ → List JSQ
  | [] => []
  | x :: t => jsSortInsert x (jsSortNums t)

/-- A JavaScript attribute value as it flows through the simulator:
a number, a string, a boolean, or undefined. -/
inductive JSVal where
  | jnum (v : JSQ)
  | jstr (s : String)
  | jbool (b : Bool)
  | jundefined
deriving DecidableEq

/-- Model of `typeof v === 'number'` (NaN and the infinities are numbers). -/
def isNumberB : JSVal → Bool
  | .jnum _ => true
  | _ => false

/-- ToNumber coercion applied to the elements of the sorted array in the
all-numeric branch of calculateStats.  The branch guard guarantees every
element is a number, so the string arm is never exercised by the theorems
(JavaScript would parse the string there). -/
def jsToNumber : JSVal → JSQ
  | .jnum v => v
  | .jbool b => .num (if b then 1 else 0)
  | .jundefined => .nan
  | .jstr _ => .nan

/-- Rendering of a number by `String(...)`.  The digits produced for a
finite value are the host's number-to-string conversion; the theorems never
depend on the exact digit string, only on it being a function of the
value. -/
def jsqString : JSQ → String
  | .num q => toString q
  | .nan => "NaN"
  | .inf => "Infinity"
  | .ninf => "-Infinity"

/-- Model of `String(value)` as used to build categorical frequency keys. -/
def jsString : JSVal → String
  | .jnum v => jsqString v
  | .jstr s => s
  | .jbool b => cond b "true" "false"
  | .jundefined => "undefined"

/-- The host Math object.  log, cos, sqrt and PI are
implementation-approximated per ECMAScript, hence abstract fields; the two
recorded properties are pinned by every conforming implementation (the
logarithm of a value below 1 is negative, and cos 0 = 1 exactly). -/
structure JSMath where
  log : ℚ → ℚ
  cos : ℚ → ℚ
  sqrt : ℚ → ℚ
  pi : ℚ
  log_neg : ∀ q : ℚ, 0 < q → q < 1 → log q < 0
  cos_zero : cos 0 = 1

/-- Math.log with the special cases pinned by ECMAScript:
log NaN = NaN, log Infinity = Infinity, log of a negative is NaN,
log 0 = -Infinity and log 1 = 0. -/
def jsLog (M : JSMath) : JSQ → JSQ
  | .nan => .nan
  | .inf => .inf
  | .ninf => .nan
  | .num q =>
      if q < 0 then .nan else if q = 0 then .ninf
      else if q = 1 then .num 0 else .num (M.log q)

/-- Math.cos: NaN on NaN or infinite input, the platform approximation on
finite input. -/
def jsCos (M : JSMath) : JSQ → JSQ
  | .num q => .num (M.cos q)
  | _ => .nan

/-- Math.sqrt with the ECMAScript special cases pinned: NaN on NaN or a
negative argument, Infinity on Infinity. -/
def jsSqrt (M : JSMath) : JSQ → JSQ
  | .nan => .nan
  | .inf => .inf
  | .ninf => .nan
  | .num q => if q < 0 then .nan else .num (M.sqrt q)

/-- A concrete platform instance used to evaluate the embedding on
closed inputs. -/
def somePlatform : JSMath where
  log := fun _ => -1
  cos := fun _ => 1
  sqrt := fun _ => 1
  pi := 3
  log_neg := by intro q h1 h2; norm_num
  cos_zero := rfl

/-- The set of values Math.random may return: [0, 1), zero included. -/
def jsRandomRange : Set ℚ := Set.Ico 0 1

/-- The ambient global Math.random state, modelled as a stream of values
together with the position of the next draw. -/
structure Rnd where
  f : ℕ → ℚ
  k : ℕ

/-- One call of Math.random. -/
def Rnd.next (r : Rnd) : ℚ × Rnd := (r.f r.k, ⟨r.f, r.k + 1⟩)

/-- A probability distribution (tanzo-schema.json: normalDistribution,
uniformDistribution, discreteDistribution). -/
inductive Distribution where
  | normal (mean stdDev : ℚ)
  | uniform (lo hi : ℚ)
  | discrete (values : List JSVal) (weights : List ℚ)
deriving DecidableEq

/-- An attribute value: a fixed primitive or a distribution (the simulator
distinguishes the two by `typeof value === 'object' && 'distribution' in
value`). -/
inductive AttrValue where
  | fixed (v : JSVal)
  | dist (d : Distribution)
deriving DecidableEq

/-- An attribute of an archetype. -/
structure AttributeT where
  name : String
  value : AttrValue
  unit : Option String
  description : Option String
deriving DecidableEq

/-- An archetype: a type, an optional name, an optional weight and its
attributes. -/
structure ArchetypeT where
  type : String
  name : Option String
  weight : Option ℚ
  attributes : List AttributeT
deriving DecidableEq

/-- The profile body. -/
structure ProfileBody where
  name : String
  archetypes : List ArchetypeT
deriving DecidableEq

/-- A validated TanzoLang profile, as returned by the external
validateProfile collaborator (file loading and schema validation are out of
scope of the simulation core). -/
structure TanzoProfile where
  profile : ProfileBody
deriving DecidableEq

/-- A JavaScript object used as a string-keyed record, in insertion
order. -/
abbrev Record (α : Type) : Type := List (String × α)

/-- Property read: `m[k]`, none meaning undefined. -/
def getR {α : Type} : Record α → String → Option α
  | [], _ => none
  | (k1, v) :: t, k => if k1 = k then some v else getR t k

/-- Property write: `m[k] = v` updates an existing key in place and appends
a fresh key. -/
def setR {α : Type} : Record α → String → α → Record α
  | [], k, v => [(k, v)]
  | (k1, v1) :: t, k, v => if k1 = k then (k1, v) :: t else (k1, v1) :: setR t k v

/-- Model of `acc[i] || 0` in the cdf-building reduce of
sampleDistribution: an absent (undefined) or falsy entry is replaced by
0. -/
def jsOrZero (o : Option JSQ) : JSQ :=
  match o with
  | none => .num 0
  | some v => if jsTruthy v then v else .num 0

/-- The reduce that the discrete branch of sampleDistribution labels
"Cumulative distribution function": at step i it reads `acc[i] || 0` as the
previous cumulative value and pushes that plus the current weight.  The
accumulator holds exactly i elements at step i, so `acc[i]` is always
undefined. -/
def buildCdfGo : List JSQ → ℕ → List JSQ → List JSQ
  | acc, _, [] => acc
  | acc, i, w :: t => buildCdfGo (acc ++ [jsAdd (jsOrZero acc[i]?) w]) (i + 1) t

/-- The full cdf-building reduce (initial accumulator is the empty
array). -/
def buildCdf (ws : List JSQ) : List JSQ := buildCdfGo [] 0 ws

/-- Array read `cdf[i]` as an operand of `<`: an out-of-bounds read gives
undefined, which compares like NaN. -/
def cdfIdx (cdf : List JSQ) (i : ℕ) : JSQ :=
  match cdf[i]? with
  | some v => v
  | none => .nan

/-- The binary-search loop of the discrete branch (`while (left < right)`,
`mid = Math.floor((left + right) / 2)`), written with a fuel argument so
the recursion is structural; every iteration shrinks `right - left` by at
least one, so fuel `right - left` never runs out. -/
def binSearchGo (cdf : List JSQ) (r : JSQ) : ℕ → ℕ → ℕ → ℕ
  | 0, left, _ => left
  | fuel + 1, left, right =>
      if left < right then
        if jsLtB (cdfIdx cdf ((left + right) / 2)) r then
          binSearchGo cdf r fuel ((left + right) / 2 + 1) right
        else
          binSearchGo cdf r fuel left ((left + right) / 2)
      else left

/-- The binary search of the discrete branch. -/
def binSearch (cdf : List JSQ) (r : JSQ) (left right : ℕ) : ℕ :=
  binSearchGo cdf r (right - left) left right

/-- sampleDistribution (simulator.ts lines 21-69): draw one value from a
distribution, consuming the ambient Math.random stream.  The trailing
`throw` of the source for an unknown distribution tag is unreachable over
the typed union and has no counterpart here. -/
def sampleDistribution (M : JSMath) (d : Distribution) (r : Rnd) : JSVal × Rnd :=
  match d with
  | .normal mean stdDev =>
      let (u1, r1) := r.next
      let (u2, r2) := r1.next
      let z0 := jsMul (jsSqrt M (jsMul (.num (-2)) (jsLog M (.num u1))))
                      (jsCos M (.num (2 * M.pi * u2)))
      (.jnum (jsAdd (jsMul z0 (.num stdDev)) (.num mean)), r2)
  | .uniform lo hi =>
      let (u, r1) := r.next
      (.jnum (.num (lo + u * (hi - lo))), r1)
  | .discrete values weights =>
      let totalWeight := weights.foldl (· + ·) 0
      let normalizedWeights := weights.map (fun w => jsDivQ w totalWeight)
      let cdf := buildCdf normalizedWeights
      let (rv, r1) := r.next
      let left := binSearch cdf (.num rv) 0 (cdf.length - 1)
      (values.getD left .jundefined, r1)

/-- The normalized-weights array of the discrete branch, exposed for the
statements about normalization. -/
def normalizeWeights (weights : List ℚ) : List JSQ :=
  weights.map (fun w => jsDivQ w (weights.foldl (· + ·) 0))

/-- simulateAttribute (simulator.ts lines 76-87): sample a distributed
value, pass a fixed value through unchanged. -/
def simulateAttribute (M : JSMath) (attr : AttributeT) (r : Rnd) :
    (String × JSVal) × Rnd :=
  match attr.value with
  | .dist d =>
      let (v, r1) := sampleDistribution M d r
      ((attr.name, v), r1)
  | .fixed v => ((attr.name, v), r)

/-- `archetype.name || archetype.type` (an absent or empty name is
falsy). -/
def renderArchName (a : ArchetypeT) : String :=
  match a.name with
  | some n => if n = "" then a.type else n
  | none => a.type

/-- The inner attribute loop of simulateProfileOnce. -/
def attrLoopOnce (M : JSMath) : List AttributeT → Record JSVal → Rnd →
    Record JSVal × Rnd
  | [], acc, r => (acc, r)
  | attr :: t, acc, r =>
      let sv := simulateAttribute M attr r
      attrLoopOnce M t (setR acc sv.1.1 sv.1.2) sv.2

/-- The archetype loop of simulateProfileOnce.  The profile is threaded as
explicit state (every read goes through it and a mutation would have to
return an updated profile), which is how the frame property "the core never
mutates a Profile" is expressed in a functional embedding. -/
def simOnceGo (M : JSMath) : TanzoProfile → ℕ → ℕ → Record (Record JSVal) →
    Rnd → Record (Record JSVal) × Rnd × TanzoProfile
  | p, _, 0, acc, r => (acc, r, p)
  | p, i, fuel + 1, acc, r =>
      match p.profile.archetypes[i]? with
      | none => (acc, r, p)
      | some arch =>
          let ar := attrLoopOnce M arch.attributes [] r
          simOnceGo M p (i + 1) fuel (setR acc (renderArchName arch) ar.1) ar.2

/-- simulateProfileOnce (simulator.ts lines 96-112), with the profile
threaded as state. -/
def simulateProfileOnceSt (M : JSMath) (p : TanzoProfile) (r : Rnd) :
    Record (Record JSVal) × Rnd × TanzoProfile :=
  simOnceGo M p 0 p.profile.archetypes.length [] r

/-- The `for (let i = 0; i < iterations; i++)` loop of simulateProfile,
pushing one trial result per iteration. -/
def iterLoop (M : JSMath) : TanzoProfile → ℕ → List (Record (Record JSVal)) →
    Rnd → List (Record (Record JSVal)) × Rnd × TanzoProfile
  | p, 0, acc, r => (acc, r, p)
  | p, n + 1, acc, r =>
      let t := simulateProfileOnceSt M p r
      iterLoop M t.2.2 n (acc ++ [t.1]) t.2.1

/-- The numeric-statistics record returned by calculateStats (there is no
count field in the source record). -/
structure NumStats where
  mean : JSQ
  median : JSQ
  min : JSVal
  max : JSVal
  stdDev : JSQ
deriving DecidableEq

/-- The three record shapes an attribute can map to in the Summary:
the numeric statistics record, the categorical `{frequencies}` record, or
the special-cased `{fixed_value}` record. -/
inductive AttrStat where
  | stats (s : NumStats)
  | freqs (m : Record JSQ)
  | fixedValue (v : JSVal)
deriving DecidableEq

/-- An undefined array element used in arithmetic coerces to NaN
(`sorted[-1] + sorted[0]` on an empty array is NaN). -/
def optNum (o : Option JSQ) : JSQ :=
  match o with
  | some v => v
  | none => .nan

/-- One step of the frequency-counting loop:
`frequencies[key] = (frequencies[key] || 0) + 1`. -/
def bumpR : Record ℕ → String → Record ℕ
  | [], k => [(k, 1)]
  | (k1, c) :: t, k => if k1 = k then (k1, c + 1) :: t else (k1, c) :: bumpR t k

/-- The frequency table of the categorical branch of calculateStats. -/
def buildFreqs (values : List JSVal) : Record ℕ :=
  values.foldl (fun m v => bumpR m (jsString v)) []

/-- calculateStats (simulator.ts lines 120-159).  All-numeric input gets
the sorted-statistics record; any non-numeric value makes the whole group
categorical.  An empty list takes the numeric branch (`[].every` is true)
and produces NaN means and undefined extrema, exactly as the source
does. -/
def calculateStats (M : JSMath) (values : List JSVal) : AttrStat :=
  if values.all isNumberB then
    let sorted := jsSortNums (values.map jsToNumber)
    let sum := sorted.foldl jsAdd (.num 0)
    let mean := jsDiv sum (.num (sorted.length : ℚ))
    let median :=
      if sorted.length % 2 = 0 then
        jsDiv (jsAdd (optNum sorted[sorted.length / 2 - 1]?)
                     (optNum sorted[sorted.length / 2]?))
              (.num 2)
      else optNum sorted[sorted.length / 2]?
    let squareDiffs := sorted.map (fun v => jsMul (jsSub v mean) (jsSub v mean))
    let avgSquareDiff := jsDiv (squareDiffs.foldl jsAdd (.num 0))
                               (.num (squareDiffs.length : ℚ))
    .stats { mean := mean, median := median,
             min := match sorted.head? with
                    | some v => .jnum v
                    | none => .jundefined,
             max := match sorted[sorted.length - 1]? with
                    | some v => .jnum v
                    | none => .jundefined,
             stdDev := jsSqrt M avgSquareDiff }
  else
    .freqs ((buildFreqs values).map (fun kv => (kv.1, jsDivQ (kv.2 : ℚ) (values.length : ℚ))))

/-- The Summary returned by simulateProfile. -/
structure Summary where
  profile_name : String
  iterations : ℕ
  archetypes : Record (Record AttrStat)
deriving DecidableEq

/-- Array read `result[archetypeName][attrName]` when collecting the
per-trial values of one attribute.  The archetype key is always present
(simulateProfileOnce wrote it for the same profile); a missing attribute
read gives undefined. -/
def trialValue (res : Record (Record JSVal)) (archName attrName : String) : JSVal :=
  match getR ((getR res archName).getD []) attrName with
  | some v => v
  | none => .jundefined

/-- The inner attribute loop of the summary-building phase of
simulateProfile: a distributed attribute gets calculateStats of its
collected trial values, a fixed attribute gets the special-cased
`{fixed_value}` record without any statistics. -/
def attrStatLoop (M : JSMath) (allResults : List (Record (Record JSVal)))
    (archName : String) : List AttributeT → Record AttrStat → Record AttrStat
  | [], acc => acc
  | attr :: t, acc =>
      match attr.value with
      | .dist _ =>
          let values := allResults.map (fun res => trialValue res archName attr.name)
          attrStatLoop M allResults archName t
            (setR acc attr.name (calculateStats M values))
      | .fixed v =>
          attrStatLoop M allResults archName t
            (setR acc attr.name (.fixedValue v))

/-- The archetype loop of the summary-building phase, with the profile
threaded as state. -/
def summaryGo (M : JSMath) (allResults : List (Record (Record JSVal))) :
    TanzoProfile → ℕ → ℕ → Record (Record AttrStat) →
    Record (Record AttrStat) × TanzoProfile
  | p, _, 0, acc => (acc, p)
  | p, i, fuel + 1, acc =>
      match p.profile.archetypes[i]? with
      | none => (acc, p)
      | some arch =>
          let stats := attrStatLoop M allResults (renderArchName arch)
                         arch.attributes []
          summaryGo M allResults p (i + 1) fuel
            (setR acc (renderArchName arch) stats)

/-- simulateProfile (simulator.ts lines 168-214) on an already-validated
profile: run the trials, then fold them into the Summary.  Loading and
validating the profile file (validateProfile) is the external Validator
collaborator and is not part of the simulation core.  There is no check of
the iteration count anywhere on this path. -/
def simulateProfileSt (M : JSMath) (p : TanzoProfile) (iterations : ℕ)
    (r : Rnd) : Summary × Rnd × TanzoProfile :=
  let t := iterLoop M p iterations [] r
  let s := summaryGo M t.1 t.2.2 0 t.2.2.profile.archetypes.length []
  ({ profile_name := s.2.profile.name, iterations := iterations,
     archetypes := s.1 }, t.2.1, s.2)

/-- A personality trait of the profile shape consumed by the utils.ts
simulateProfile entry point. -/
structure UTrait where
  value : ℚ
  variance : Option ℚ
deriving DecidableEq

/-- The parts of the utils.ts profile that its simulateProfile reads:
`profile.profile.name` and `profile.digital_archetype.traits` (iterated in
insertion order by Object.entries). -/
structure UtilsProfile where
  name : String
  traits : List (String × UTrait)

/-- The source of randomness of utils.ts simulateProfile: either the local
seeded generator built when a seed is supplied, or the ambient global
Math.random stream. -/
inductive RngSrc where
  | seeded (s : ℚ)
  | ambient (f : ℕ → ℚ) (k : ℕ)

/-- JavaScript truncation toward zero, as performed by the `%`
remainder. -/
def jsTrunc (q : ℚ) : ℤ := if 0 ≤ q then ⌊q⌋ else ⌈q⌉

/-- The JavaScript `%` remainder: same sign as the dividend. -/
def jsModQ (a b : ℚ) : ℚ := a - b * ((jsTrunc (a / b) : ℤ) : ℚ)

/-- One draw: `seed = (seed * 9301 + 49297) % 233280; seed / 233280` for
the seeded generator, one ambient Math.random call otherwise. -/
def RngSrc.next : RngSrc → ℚ × RngSrc
  | .seeded s =>
      let s1 := jsModQ (s * 9301 + 49297) 233280
      (s1 / 233280, .seeded s1)
  | .ambient f k => (f k, .ambient f (k + 1))

/-- The clamp `Math.max(0.0, Math.min(1.0, value))`. -/
def clamp01 (v : JSQ) : JSQ := jsMax (.num 0) (jsMin (.num 1) v)

/-- Model of `trait.variance || 0.1`: an absent or zero variance (both
falsy) is replaced by 0.1. -/
def traitStdDevOf (t : UTrait) : ℚ :=
  match t.variance with
  | some v => if v = 0 then 1 / 10 else v
  | none => 1 / 10

/-- The per-trait inner iteration loop of utils.ts simulateProfile:
Box-Muller from two draws, scale, shift and clamp. -/
def sampleTraitLoop (M : JSMath) (mean stddev : ℚ) : ℕ → RngSrc →
    List JSQ × RngSrc
  | 0, src => ([], src)
  | n + 1, src =>
      let (u1, s1) := src.next
      let (u2, s2) := s1.next
      let z0 := jsMul (jsSqrt M (jsMul (.num (-2)) (jsLog M (.num u1))))
                      (jsCos M (.num (2 * M.pi * u2)))
      let v := clamp01 (jsAdd (.num mean) (jsMul z0 (.num stddev)))
      let (rest, s3) := sampleTraitLoop M mean stddev n s2
      (v :: rest, s3)

/-- The trait loop of utils.ts simulateProfile. -/
def simTraitsLoop (M : JSMath) (n : ℕ) : List (String × UTrait) → RngSrc →
    List (String × List JSQ) × RngSrc
  | [], src => ([], src)
  | (tn, t) :: rest, src =>
      let (vals, s1) := sampleTraitLoop M t.value (traitStdDevOf t) n src
      let (tl, s2) := simTraitsLoop M n rest s1
      ((tn, vals) :: tl, s2)

/-- The SimulationResult of utils.ts. -/
structure UtilsSimResult where
  profileName : String
  numIterations : ℕ
  traitMeans : Record JSQ
  traitStdDevs : Record JSQ
  traitRanges : Record (JSQ × JSQ)
deriving DecidableEq

/-- The statistics loop of utils.ts simulateProfile: mean, population
standard deviation and `[Math.min(...values), Math.max(...values)]` per
trait (the spread of an empty array gives Infinity and -Infinity). -/
def utilsStatsLoop (M : JSMath) : List (String × List JSQ) → Record JSQ →
    Record JSQ → Record (JSQ × JSQ) →
    Record JSQ × Record JSQ × Record (JSQ × JSQ)
  | [], ms, sds, rs => (ms, sds, rs)
  | (tn, vals) :: rest, ms, sds, rs =>
      let m := jsDiv (vals.foldl jsAdd (.num 0)) (.num (vals.length : ℚ))
      let variance := jsDiv
        (vals.foldl (fun s v => jsAdd s (jsMul (jsSub v m) (jsSub v m))) (.num 0))
        (.num (vals.length : ℚ))
      let range := (vals.foldl jsMin .inf, vals.foldl jsMax .ninf)
      utilsStatsLoop M rest (setR ms tn m) (setR sds tn (jsSqrt M variance))
        (setR rs tn range)

/-- The body of utils.ts simulateProfile after the randomness source has
been chosen. -/
def utilsSimulateAux (M : JSMath) (p : UtilsProfile) (n : ℕ) (src : RngSrc) :
    UtilsSimResult :=
  let (simulated, _) := simTraitsLoop M n p.traits src
  let (ms, sds, rs) := utilsStatsLoop M simulated [] [] []
  { profileName := p.name, numIterations := n, traitMeans := ms,
    traitStdDevs := sds, traitRanges := rs }

/-- The choice `let rng = Math.random; if (seed !== undefined) rng = ...`
at utils.ts lines 60-68: a supplied seed selects the local seeded
generator, otherwise the ambient global Math.random stream is used. -/
def initSrc (seed : Option ℚ) (mathRandom : ℕ → ℚ) : RngSrc :=
  match seed with
  | some s => .seeded s
  | none => .ambient mathRandom 0

/-- simulateProfile (utils.ts lines 55-125).  The ambient Math.random
state is an explicit argument because the unseeded path reads it. -/
def utilsSimulateProfile (M : JSMath) (p : UtilsProfile) (n : ℕ)
    (seed : Option ℚ) (mathRandom : ℕ → ℚ) : UtilsSimResult :=
  utilsSimulateAux M p n (initSrc seed mathRandom)

/-- A raw distribution document as seen by the validators: the fields the
Zod schema of typescript-validator.ts and the JSON schema constrain. -/
inductive RawDist where
  | normal (mean stdDev : ℚ)
  | uniform (lo hi : ℚ)
  | discrete (values : List JSVal) (weights : Option (List ℚ))
deriving DecidableEq

/-- A JSON primitive (string, number or boolean), as required for discrete
values by both validators. -/
def isPrimB : JSVal → Bool
  | .jundefined => false
  | _ => true

/-- The Zod distributionSchema of
src/examples/integrations/typescript-validator.ts lines 9-35:
normal requires a positive stdDev; uniform requires only that min and max
are numbers; discrete requires values to be primitives and leaves weights
an optional unconstrained number array. -/
def zodDistValid : RawDist → Bool
  | .normal _ sd => decide (0 < sd)
  | .uniform _ _ => true
  | .discrete vs _ => vs.all isPrimB

/-- The distribution constraints of
src/clients/python/tanzo_schema/schema/tanzo-schema.json lines 100-168:
normal requires stdDev with exclusiveMinimum 0; uniform requires only
numeric min and max; discrete requires values (minItems 1, primitives) and
weights (minItems 1, each in [0,1]).  No constraint relates the lengths of
values and weights, and nothing compares min with max. -/
def schemaDistValid : RawDist → Bool
  | .normal _ sd => decide (0 < sd)
  | .uniform _ _ => true
  | .discrete vs ws =>
      match ws with
      | none => false
      | some l =>
          vs.all isPrimB && decide (1 ≤ vs.length) && decide (1 ≤ l.length)
            && l.all (fun w => decide (0 ≤ w) && decide (w ≤ 1))

/-- Prefix sums of a list of rationals. -/
def prefixSums : List ℚ → ℚ → List ℚ
  | [], _ => []
  | w :: t, acc => (acc + w) :: prefixSums t (acc + w)

/-- Modelled from the spec: the sampling contract of the Discrete branch
(spec section 4.2) — normalize the weights by their sum, build the
cumulative sum sequence, and return the smallest index whose cumulative
weight is at least r.  This is the linear-scan reference the binary search
must agree with; it is compared against the source-derived
sampleDistribution. -/
def specSmallestCoveringIndex (weights : List ℚ) (r : ℚ) : Option ℕ :=
  let total := weights.foldl (· + ·) 0
  let normalized := weights.map (· / total)
  let cumulative := prefixSums normalized 0
  cumulative.findIdx? (fun c => decide (r ≤ c))

/-- The value an attribute receives in the summary-building loop: a
distributed attribute gets calculateStats of its collected trial values, a
fixed attribute gets the special-cased fixed_value record. -/
def attrBranch (M : JSMath) (allResults : List (Record (Record JSVal)))
    (archName : String) (attr : AttributeT) : AttrStat :=
  match attr.value with
  | .dist _ =>
      calculateStats M (allResults.map (fun res => trialValue res archName attr.name))
  | .fixed v => .fixedValue v

/-- A constant ambient Math.random stream, for evaluating the embedding on
closed inputs. -/
def constRnd (q : ℚ) : Rnd := ⟨fun _ => q, 0⟩

/-- A fixed-value attribute x = 7. -/
def fixedAttr : AttributeT := ⟨"x", .fixed (.jnum (.num 7)), none, none⟩

/-- An archetype holding only the fixed attribute. -/
def fixedArch : ArchetypeT := ⟨"digital", some "a", none, [fixedAttr]⟩

/-- A profile with a single archetype holding a single fixed-value
attribute x = 7. -/
def fixedProfile : TanzoProfile := ⟨⟨"p", [fixedArch]⟩⟩

/-- A discrete-distributed attribute. -/
def discreteAttr : AttributeT :=
  ⟨"x", .dist (.discrete [.jnum (.num 1), .jnum (.num 2)] [1/2, 1/2]),
    none, none⟩

/-- An archetype holding only the discrete attribute. -/
def discreteArch : ArchetypeT := ⟨"digital", some "a", none, [discreteAttr]⟩

/-- A profile with a single archetype holding a single discrete-distributed
attribute. -/
def discreteProfile : TanzoProfile := ⟨⟨"p", [discreteArch]⟩⟩

/-- C1, counterexample: the simulation entry point does not report a fixed
attribute as a degenerate numeric-stats group.  For the profile with the
single fixed attribute x = 7 and one trial, the Summary entry for x is the
special-cased record fixed_value 7, which is not the claimed
NumericStats mean 7, stdDev 0, min 7, max 7. -/
theorem c1_counterexample :
    (simulateProfileSt somePlatform fixedProfile 1 (constRnd 0)).1 =
      ⟨"p", 1, [("a", [("x", .fixedValue (.jnum (.num 7)))])]⟩ ∧
    AttrStat.fixedValue (.jnum (.num 7)) ≠
      .stats ⟨.num 7, .num 7, .jnum (.num 7), .jnum (.num 7), .num 0⟩ := by
  constructor
  · norm_num [simulateProfileSt, iterLoop, summaryGo, attrStatLoop,
      simulateProfileOnceSt, simOnceGo, attrLoopOnce, simulateAttribute,
      renderArchName, getR, setR, fixedProfile, fixedArch, fixedAttr,
      (show ("a" : String) ≠ "" by decide)]
  · decide

/-- C5, counterexample: calling the simulation entry point with a trial
count of 0 does not fail with any error; it silently runs and returns a
Summary whose numeric statistics for the distributed attribute are computed
from an empty value list: NaN mean, median and stdDev, and undefined min
and max. -/
theorem c5_counterexample :
    (simulateProfileSt somePlatform discreteProfile 0 (constRnd 0)).1 =
      ⟨"p", 0, [("a", [("x", .stats ⟨.nan, .nan, .jundefined, .jundefined, .nan⟩)])]⟩ := by
  norm_num [simulateProfileSt, iterLoop, summaryGo, attrStatLoop, calculateStats,
    jsSortNums, jsDiv, optNum, jsAdd, jsSqrt, renderArchName, getR, setR,
    trialValue, discreteProfile, discreteArch, discreteAttr, isNumberB,
    jsToNumber, (show ("a" : String) ≠ "" by decide)]

/-- C3, counterexample: sampling a Discrete distribution whose weights sum
to 0 does not fail with DegenerateWeightsError (no such error exists
anywhere on this path); the normalization produces NaN entries (0/0) and
the binary search then silently returns the first value. -/
theorem c3_counterexample :
    normalizeWeights [0, 0] = [.nan, .nan] ∧
    (sampleDistribution somePlatform (.discrete [.jstr "a", .jstr "b"] [0, 0])
      (constRnd (1/2))).1 = .jstr "a" := by
  constructor
  · norm_num [normalizeWeights, jsDivQ]
  · norm_num [sampleDistribution, Rnd.next, constRnd, jsDivQ, buildCdf,
      buildCdfGo, jsOrZero, jsAdd, jsTruthy, binSearch, binSearchGo, cdfIdx,
      jsLtB]

/-- C4, counterexample: u1 is drawn by a plain Math.random call, whose
range [0, 1) contains 0, so the logarithm is applied to 0 and the sample is
the non-finite value Infinity rather than the claimed Box-Muller real; the
ln(0) branch is reachable. -/
theorem c4_counterexample :
    (0 : ℚ) ∈ jsRandomRange ∧
    (sampleDistribution somePlatform (.normal 0 1) (constRnd 0)).1 =
      .jnum .inf := by
  constructor
  · exact ⟨le_refl 0, by norm_num⟩
  · norm_num [sampleDistribution, Rnd.next, constRnd, jsLog, jsSqrt, jsCos,
      jsMul, jsAdd, somePlatform]

/-- C2, counterexample: sampleDistribution consumes the ambient global
Math.random stream — two states of that global stream, both made of legal
Math.random outputs, give different samples for the same distribution, so
the sampling functions do not draw only from an explicitly injected
generator. -/
theorem c2_counterexample :
    (0 : ℚ) ∈ jsRandomRange ∧ (1/2 : ℚ) ∈ jsRandomRange ∧
    (sampleDistribution somePlatform (.uniform 0 1) (constRnd 0)).1 ≠
      (sampleDistribution somePlatform (.uniform 0 1) (constRnd (1/2))).1 := by
  refine ⟨⟨le_refl 0, by norm_num⟩, ⟨by norm_num, by norm_num⟩, ?_⟩
  norm_num [sampleDistribution, Rnd.next, constRnd]

/-- C2, amended: with a supplied seed, the utils.ts simulation entry point
is deterministic — its result does not depend on the state of the ambient
global Math.random stream at all, so two invocations with the same profile,
trial count, seed and platform produce identical SimulationResult
output.  (Without a seed the entry point reads the ambient stream, and the
sampling functions of simulator.ts always do; see the counterexample.) -/
theorem c2_amended (M : JSMath) (p : UtilsProfile) (n : ℕ) (s : ℚ)
    (f g : ℕ → ℚ) :
    utilsSimulateProfile M p n (some s) f = utilsSimulateProfile M p n (some s) g := rfl

/-- C4, amended: u1 is drawn from Math.random's range [0, 1) — zero
included, not excluded — and whenever the drawn u1 is strictly between 0
and 1 the sampled value is the finite Box-Muller combination
mean + sqrt(-2 ln u1) * cos(2 pi u2) * stdDev, built from the platform's
log, cos and sqrt. -/
theorem c4_amended (M : JSMath) (mean stdDev u1 u2 : ℚ)
    (h1 : 0 < u1) (h2 : u1 < 1) :
    (sampleDistribution M (.normal mean stdDev)
        ⟨fun i => if i = 0 then u1 else u2, 0⟩).1 =
      .jnum (.num (mean + M.sqrt (-2 * M.log u1) * M.cos (2 * M.pi * u2) * stdDev)) := by
  have hlog : M.log u1 < 0 := M.log_neg u1 h1 h2
  have hne0 : u1 ≠ 0 := ne_of_gt h1
  have hne1 : u1 ≠ 1 := ne_of_lt h2
  have hnlt : ¬(u1 < 0) := not_lt.mpr (le_of_lt h1)
  have harg : ¬(-2 * M.log u1 < 0) := by nlinarith
  simp only [sampleDistribution, Rnd.next, jsLog, jsSqrt, jsCos, jsMul, jsAdd,
    hnlt, hne0, hne1, harg, if_neg, if_false, reduceIte]
  norm_num
  ring_nf

/-- C7: the discrete sampler's "cumulative distribution function" is not
cumulative (`acc[i] || 0` always reads past the end of the accumulator), so
the binary search disagrees with the specified smallest index whose prefix
sum covers r.  For values a, b, c with weights 0.2, 0.3, 0.5 and
r = 0.45 the code returns c while the specified linear scan over the true
cumulative sums selects index 1, i.e. b. -/
theorem c7_code_bug :
    (sampleDistribution somePlatform
        (.discrete [.jstr "a", .jstr "b", .jstr "c"] [1/5, 3/10, 1/2])
        (constRnd (9/20))).1 = .jstr "c" ∧
    specSmallestCoveringIndex [1/5, 3/10, 1/2] (9/20) = some 1 ∧
    [JSVal.jstr "a", .jstr "b", .jstr "c"].getD 1 .jundefined = .jstr "b" ∧
    JSVal.jstr "c" ≠ .jstr "b" := by
  refine ⟨?_, ?_, by decide, by decide⟩
  · norm_num [sampleDistribution, Rnd.next, constRnd, jsDivQ, buildCdf,
      buildCdfGo, jsOrZero, jsAdd, jsTruthy, binSearch, binSearchGo, cdfIdx,
      jsLtB]
  · norm_num [specSmallestCoveringIndex, prefixSums, List.findIdx?]

/-- C8, counterexample: both cited validators accept a Uniform
distribution with max below min, and both accept a Discrete distribution
whose values and weights have different lengths — the very document the
spec demands be rejected. -/
theorem c8_counterexample :
    zodDistValid (.uniform 5 2) = true ∧
    schemaDistValid (.uniform 5 2) = true ∧
    zodDistValid (.discrete [.jstr "a", .jstr "b"] (some [1/2])) = true ∧
    schemaDistValid (.discrete [.jstr "a", .jstr "b"] (some [1/2])) = true := by
  refine ⟨?_, ?_, ?_, ?_⟩ <;>
    norm_num [zodDistValid, schemaDistValid, isPrimB]

/-- C8, amended: of the four invariants the claim lists, validation
enforces only the Normal one — a non-positive stdDev is rejected by both
the Zod schema and the JSON schema — and the JSON schema additionally
rejects any weight outside [0, 1]; Uniform max below min and mismatched
values/weights lengths are accepted, and no InvalidDistributionError type
exists (failures are the validators' generic validation errors). -/
theorem c8_amended (m sd : ℚ) (vs : List JSVal) (ws : List ℚ) (w : ℚ)
    (hsd : sd ≤ 0) (hw : w ∈ ws) (hrange : w < 0 ∨ 1 < w) :
    zodDistValid (.normal m sd) = false ∧
    schemaDistValid (.normal m sd) = false ∧
    schemaDistValid (.discrete vs (some ws)) = false := by
  refine ⟨?_, ?_, ?_⟩
  · simp [zodDistValid, not_lt.mpr hsd]
  · simp [schemaDistValid, not_lt.mpr hsd]
  · simp only [schemaDistValid, Bool.and_eq_false_iff]
    right
    rw [List.all_eq_false]
    refine ⟨w, hw, ?_⟩
    rcases hrange with h | h
    · simp [not_le.mpr h]
    · simp [not_le.mpr h]

/-- C8, witness: the amended theorem applied to stdDev 0 and the weight
list containing 2. -/
theorem c8_witness :
    (0 : ℚ) ≤ 0 ∧ (2 : ℚ) ∈ [(2 : ℚ)] ∧ ((2:ℚ) < 0 ∨ (1:ℚ) < 2) ∧
    (zodDistValid (.normal 0 0) = false ∧
     schemaDistValid (.normal 0 0) = false ∧
     schemaDistValid (.discrete [.jstr "a"] (some [2])) = false) :=
  ⟨le_refl 0, by decide, Or.inr (by norm_num),
   c8_amended 0 0 [.jstr "a"] [2] 2 (le_refl 0) (by decide) (Or.inr (by norm_num))⟩

/-- C4, witness: the amended Box-Muller theorem applied to the platform
instance with mean 0, stdDev 1, u1 = 1/2 and u2 = 0. -/
theorem c4_witness :
    (0 : ℚ) < 1/2 ∧ (1/2 : ℚ) < 1 ∧
    (sampleDistribution somePlatform (.normal 0 1)
        ⟨fun i => if i = 0 then (1/2 : ℚ) else 0, 0⟩).1 =
      .jnum (.num (0 + somePlatform.sqrt (-2 * somePlatform.log (1/2)) *
        somePlatform.cos (2 * somePlatform.pi * 0) * 1)) :=
  ⟨by norm_num, by norm_num,
   c4_amended somePlatform 0 1 (1/2) 0 (by norm_num) (by norm_num)⟩

/-- Reading a key just written. -/
theorem getR_setR_self {α : Type} (m : Record α) (k : String) (v : α) :
    getR (setR m k v) k = some v := by
  induction m with
  | nil => simp [setR, getR]
  | cons h t ih =>
      obtain ⟨k1, v1⟩ := h
      by_cases hk : k1 = k <;> simp [setR, getR, hk, ih]

/-- Writing one key leaves every other key unchanged. -/
theorem getR_setR_other {α : Type} (m : Record α) (k k1 : String) (v : α)
    (h : k ≠ k1) : getR (setR m k v) k1 = getR m k1 := by
  induction m with
  | nil => simp [setR, getR, h]
  | cons hd t ih =>
      obtain ⟨k2, v2⟩ := hd
      by_cases hk : k2 = k
      · subst hk
        simp [setR, getR, h]
      · simp [setR, getR, hk, ih]

/-- The attribute loop of the summary phase does not touch keys that are
not attribute names of the list it processes. -/
theorem attrStatLoop_preserve (M : JSMath)
    (allRes : List (Record (Record JSVal))) (an : String) :
    ∀ (attrs : List AttributeT) (acc : Record AttrStat) (k : String),
      (∀ a ∈ attrs, a.name ≠ k) →
      getR (attrStatLoop M allRes an attrs acc) k = getR acc k := by
  intro attrs
  induction attrs with
  | nil => intro acc k h; rfl
  | cons a t ih =>
      intro acc k h
      have ha : a.name ≠ k := h a (List.mem_cons_self a t)
      have ht : ∀ b ∈ t, b.name ≠ k := fun b hb => h b (List.mem_cons_of_mem a hb)
      cases hv : a.value with
      | dist d =>
          simp only [attrStatLoop, hv]
          rw [ih _ _ ht, getR_setR_other _ _ _ _ ha]
      | fixed v =>
          simp only [attrStatLoop, hv]
          rw [ih _ _ ht, getR_setR_other _ _ _ _ ha]

/-- The attribute loop of the summary phase maps each attribute (unique by
name) to its branch value. -/
theorem attrStatLoop_found (M : JSMath)
    (allRes : List (Record (Record JSVal))) (an : String) :
    ∀ (attrs : List AttributeT) (acc : Record AttrStat) (attr : AttributeT),
      attr ∈ attrs → (attrs.map AttributeT.name).Nodup →
      getR (attrStatLoop M allRes an attrs acc) attr.name =
        some (attrBranch M allRes an attr) := by
  intro attrs
  induction attrs with
  | nil => intro acc attr hmem; exact absurd hmem (List.not_mem_nil attr)
  | cons a t ih =>
      intro acc attr hmem hnd
      rw [List.map_cons, List.nodup_cons] at hnd
      obtain ⟨hnotin, hndt⟩ := hnd
      rcases List.mem_cons.mp hmem with rfl | hmemt
      · have ht : ∀ b ∈ t, b.name ≠ attr.name := by
          intro b hb hbe
          exact hnotin (hbe ▸ List.mem_map_of_mem AttributeT.name hb)
        cases hv : attr.value with
        | dist d =>
            simp only [attrStatLoop, hv]
            rw [attrStatLoop_preserve M allRes an t _ _ ht,
              getR_setR_self, attrBranch, hv]
        | fixed v =>
            simp only [attrStatLoop, hv]
            rw [attrStatLoop_preserve M allRes an t _ _ ht,
              getR_setR_self, attrBranch, hv]
      · cases hv : a.value with
        | dist d =>
            simp only [attrStatLoop, hv]
            exact ih _ attr hmemt hndt
        | fixed v =>
            simp only [attrStatLoop, hv]
            exact ih _ attr hmemt hndt

/-- The archetype loop of the summary phase does not touch keys that are
not rendered names of the archetypes it still has to process. -/
theorem summaryGo_preserve (M : JSMath)
    (allRes : List (Record (Record JSVal))) :
    ∀ (fuel i : ℕ) (p : TanzoProfile) (acc : Record (Record AttrStat))
      (k : String),
      (∀ j a, i ≤ j → p.profile.archetypes[j]? = some a →
        renderArchName a ≠ k) →
      getR (summaryGo M allRes p i fuel acc).1 k = getR acc k := by
  intro fuel
  induction fuel with
  | zero => intro i p acc k h; rfl
  | succ n ih =>
      intro i p acc k h
      cases hg : p.profile.archetypes[i]? with
      | none => simp [summaryGo, hg]
      | some arch =>
          have hne : renderArchName arch ≠ k := h i arch (le_refl i) hg
          simp only [summaryGo, hg]
          rw [ih (i + 1) p _ k (fun j a hj ha => h j a (by omega) ha),
            getR_setR_other _ _ _ _ hne]

/-- The archetype loop of the summary phase maps each archetype (unique by
rendered name) to the record its attribute loop builds. -/
theorem summaryGo_found (M : JSMath)
    (allRes : List (Record (Record JSVal))) :
    ∀ (fuel i j : ℕ) (p : TanzoProfile) (acc : Record (Record AttrStat))
      (arch : ArchetypeT),
      i ≤ j → j < i + fuel → p.profile.archetypes[j]? = some arch →
      (∀ j2 a2, i ≤ j2 → j2 ≠ j → p.profile.archetypes[j2]? = some a2 →
        renderArchName a2 ≠ renderArchName arch) →
      getR (summaryGo M allRes p i fuel acc).1 (renderArchName arch) =
        some (attrStatLoop M allRes (renderArchName arch) arch.attributes []) := by
  intro fuel
  induction fuel with
  | zero => intro i j p acc arch hij hlt; omega
  | succ n ih =>
      intro i j p acc arch hij hlt hj hside
      cases hg : p.profile.archetypes[i]? with
      | none =>
          have hlen : p.profile.archetypes.length ≤ i := List.getElem?_eq_none_iff.mp hg
          have hjlen : j < p.profile.archetypes.length := by
            have := List.getElem?_eq_some_iff.mp hj
            exact this.1
          omega
      | some a =>
          by_cases hii : i = j
          · subst hii
            have : a = arch := by rw [hg] at hj; exact Option.some.inj hj
            subst this
            simp only [summaryGo, hg]
            rw [summaryGo_preserve M allRes n (i + 1) p _ _
              (fun j2 a2 hj2 ha2 => hside j2 a2 (by omega) (by omega) ha2),
              getR_setR_self]
          · have hia : i < j := lt_of_le_of_ne hij hii
            have hne : renderArchName a ≠ renderArchName arch :=
              hside i a (le_refl i) hii hg
            simp only [summaryGo, hg]
            exact ih (i + 1) j p _ arch (by omega) (by omega) hj
              (fun j2 a2 hj2 hj2n ha2 => hside j2 a2 (by omega) hj2n ha2)

/-- The trial loops leave the threaded profile untouched. -/
theorem simOnceGo_profile (M : JSMath) :
    ∀ (fuel i : ℕ) (p : TanzoProfile) (acc : Record (Record JSVal)) (r : Rnd),
      (simOnceGo M p i fuel acc r).2.2 = p := by
  intro fuel
  induction fuel with
  | zero => intro i p acc r; rfl
  | succ n ih =>
      intro i p acc r
      cases hg : p.profile.archetypes[i]? with
      | none => simp [simOnceGo, hg]
      | some arch => simp [simOnceGo, hg, ih]

/-- simulateProfileOnce leaves the threaded profile untouched. -/
theorem simulateProfileOnceSt_profile (M : JSMath) (p : TanzoProfile)
    (r : Rnd) : (simulateProfileOnceSt M p r).2.2 = p :=
  simOnceGo_profile M _ _ p [] r

/-- The iteration loop leaves the threaded profile untouched. -/
theorem iterLoop_profile (M : JSMath) :
    ∀ (n : ℕ) (p : TanzoProfile) (acc : List (Record (Record JSVal)))
      (r : Rnd), (iterLoop M p n acc r).2.2 = p := by
  intro n
  induction n with
  | zero => intro p acc r; rfl
  | succ m ih =>
      intro p acc r
      simp only [iterLoop]
      rw [ih, simulateProfileOnceSt_profile]

/-- The summary loop leaves the threaded profile untouched. -/
theorem summaryGo_profile (M : JSMath) (allRes : List (Record (Record JSVal))) :
    ∀ (fuel i : ℕ) (p : TanzoProfile) (acc : Record (Record AttrStat)),
      (summaryGo M allRes p i fuel acc).2 = p := by
  intro fuel
  induction fuel with
  | zero => intro i p acc; rfl
  | succ n ih =>
      intro i p acc
      cases hg : p.profile.archetypes[i]? with
      | none => simp [summaryGo, hg]
      | some arch => simp [summaryGo, hg, ih]

/-- C9: simulating a profile never mutates it.  Both the single-trial
entry point and the full simulation entry point return the threaded
Profile state exactly as it was passed in — every archetype, attribute,
name, weight and distribution field is unchanged — for every platform,
profile, trial count and random stream. -/
theorem c9_profile_immutable (M : JSMath) (p : TanzoProfile) (n : ℕ)
    (r : Rnd) :
    (simulateProfileOnceSt M p r).2.2 = p ∧
    (simulateProfileSt M p n r).2.2 = p := by
  constructor
  · exact simulateProfileOnceSt_profile M p r
  · show (summaryGo M _ _ 0 _ []).2 = p
    rw [iterLoop_profile, summaryGo_profile]

/-- Two positions holding archetypes with the same rendered name must be
the same position when the rendered names are unique. -/
theorem renderName_ne_of_nodup {l : List ArchetypeT}
    (hnd : (l.map renderArchName).Nodup) {i j : ℕ} {a b : ArchetypeT}
    (hi : l[i]? = some a) (hj : l[j]? = some b) (hij : i ≠ j) :
    renderArchName a ≠ renderArchName b := by
  intro heq
  have hilen : i < l.length := (List.getElem?_eq_some_iff.mp hi).1
  have hmi : (l.map renderArchName)[i]? = some (renderArchName a) := by
    simp [List.getElem?_map, hi]
  have hmj : (l.map renderArchName)[j]? = some (renderArchName b) := by
    simp [List.getElem?_map, hj]
  have : (l.map renderArchName)[i]? = (l.map renderArchName)[j]? := by
    rw [hmi, hmj, heq]
  exact hij (List.getElem?_inj (by simpa using hilen) hnd this)

/-- C1, amended: a fixed (non-distributed) Attribute does not appear in the
Summary as a degenerate numeric-stats group; for every profile whose
rendered archetype names and attribute names are unique, every trial count
of at least 1 (indeed any trial count), and every random stream, the
Summary special-cases it as the record fixed_value v, bypassing the
statistics formulas entirely. -/
theorem c1_amended (M : JSMath) (p : TanzoProfile) (n : ℕ) (r : Rnd)
    (j : ℕ) (arch : ArchetypeT) (attr : AttributeT) (v : JSVal)
    (hn : 1 ≤ n)
    (hj : p.profile.archetypes[j]? = some arch)
    (hmem : attr ∈ arch.attributes)
    (hv : attr.value = .fixed v)
    (hnd1 : (p.profile.archetypes.map renderArchName).Nodup)
    (hnd2 : (arch.attributes.map AttributeT.name).Nodup) :
    getR ((getR (simulateProfileSt M p n r).1.archetypes
        (renderArchName arch)).getD []) attr.name =
      some (.fixedValue v) := by
  have hjlen : j < p.profile.archetypes.length :=
    (List.getElem?_eq_some_iff.mp hj).1
  have hp1 : (iterLoop M p n [] r).2.2 = p := iterLoop_profile M n p [] r
  show getR ((getR (summaryGo M _ _ 0 _ []).1 (renderArchName arch)).getD [])
      attr.name = some (.fixedValue v)
  rw [hp1]
  rw [summaryGo_found M _ p.profile.archetypes.length 0 j p [] arch
    (Nat.zero_le j) (by omega) hj
    (fun j2 a2 _ hj2n ha2 => renderName_ne_of_nodup hnd1 ha2 hj hj2n)]
  rw [Option.getD_some]
  rw [attrStatLoop_found M _ _ arch.attributes [] attr hmem hnd2]
  simp [attrBranch, hv]

/-- C1, witness: the amended theorem applied to the one-archetype profile
with the fixed attribute x = 7 and one trial. -/
theorem c1_witness :
    1 ≤ 1 ∧ fixedProfile.profile.archetypes[0]? = some fixedArch ∧
    fixedAttr ∈ fixedArch.attributes ∧
    fixedAttr.value = .fixed (.jnum (.num 7)) ∧
    getR ((getR (simulateProfileSt somePlatform fixedProfile 1
        (constRnd 0)).1.archetypes (renderArchName fixedArch)).getD [])
      fixedAttr.name = some (.fixedValue (.jnum (.num 7))) :=
  ⟨le_refl 1, rfl, by simp [fixedArch], rfl,
   c1_amended somePlatform fixedProfile 1 (constRnd 0) 0 fixedArch fixedAttr
     (.jnum (.num 7)) (le_refl 1) rfl (by simp [fixedArch]) rfl
     (by simp [fixedProfile]) (by simp [fixedArch])⟩

/-- C5, amended: there is no trial-count validation anywhere on the
simulation entry point: with a trial count of 0 it silently runs, and every
distributed attribute (unique names assumed for the record lookup) is
reported as calculateStats of an empty value list — NaN mean, median and
stdDev and undefined min and max — while the claim demanded an
InvalidTrialCountError. -/
theorem c5_amended (M : JSMath) (p : TanzoProfile) (r : Rnd)
    (j : ℕ) (arch : ArchetypeT) (attr : AttributeT) (d : Distribution)
    (hj : p.profile.archetypes[j]? = some arch)
    (hmem : attr ∈ arch.attributes)
    (hv : attr.value = .dist d)
    (hnd1 : (p.profile.archetypes.map renderArchName).Nodup)
    (hnd2 : (arch.attributes.map AttributeT.name).Nodup) :
    getR ((getR (simulateProfileSt M p 0 r).1.archetypes
        (renderArchName arch)).getD []) attr.name =
      some (calculateStats M []) ∧
    calculateStats M [] =
      .stats ⟨.nan, .nan, .jundefined, .jundefined, .nan⟩ := by
  constructor
  · have hjlen : j < p.profile.archetypes.length :=
      (List.getElem?_eq_some_iff.mp hj).1
    have hp1 : (iterLoop M p 0 [] r).2.2 = p := iterLoop_profile M 0 p [] r
    have hall : (iterLoop M p 0 [] r).1 = [] := rfl
    show getR ((getR (summaryGo M _ _ 0 _ []).1 (renderArchName arch)).getD [])
        attr.name = some (calculateStats M [])
    rw [hp1, hall]
    rw [summaryGo_found M [] p.profile.archetypes.length 0 j p [] arch
      (Nat.zero_le j) (by omega) hj
      (fun j2 a2 _ hj2n ha2 => renderName_ne_of_nodup hnd1 ha2 hj hj2n)]
    rw [Option.getD_some]
    rw [attrStatLoop_found M [] _ arch.attributes [] attr hmem hnd2]
    simp [attrBranch, hv]
  · norm_num [calculateStats, jsSortNums, jsDiv, optNum, jsAdd, jsSqrt,
      isNumberB]

/-- C5, witness: the amended theorem applied to the one-archetype profile
with the discrete attribute. -/
theorem c5_witness :
    discreteProfile.profile.archetypes[0]? = some discreteArch ∧
    discreteAttr ∈ discreteArch.attributes ∧
    discreteAttr.value =
      .dist (.discrete [.jnum (.num 1), .jnum (.num 2)] [1/2, 1/2]) ∧
    (getR ((getR (simulateProfileSt somePlatform discreteProfile 0
        (constRnd 0)).1.archetypes (renderArchName discreteArch)).getD [])
      discreteAttr.name = some (calculateStats somePlatform []) ∧
     calculateStats somePlatform [] =
       .stats ⟨.nan, .nan, .jundefined, .jundefined, .nan⟩) :=
  ⟨rfl, by simp [discreteArch], rfl,
   c5_amended somePlatform discreteProfile (constRnd 0) 0 discreteArch
     discreteAttr (.discrete [.jnum (.num 1), .jnum (.num 2)] [1/2, 1/2])
     rfl (by simp [discreteArch]) rfl (by simp [discreteProfile])
     (by simp [discreteArch])⟩

/-- An indexed array read with a default is an element or the default. -/
theorem getD_mem_or_default {α : Type} (l : List α) (i : ℕ) (d : α) :
    l.getD i d ∈ l ∨ l.getD i d = d := by
  rw [List.getD_eq_getElem?_getD]
  cases hg : l[i]? with
  | none => right; rfl
  | some x =>
      left
      simp only [Option.getD_some]
      exact List.getElem?_mem hg

/-- C3, amended: a Discrete distribution with weights of nonzero sum
normalizes without any NaN or infinite entry and without division by zero,
and the sampled result is always one of the declared values (or undefined
on an out-of-range index), never NaN; but a zero weight sum raises no
DegenerateWeightsError — no such error exists — and instead silently
returns the first value (see the counterexample). -/
theorem c3_amended (M : JSMath) (vals : List JSVal) (ws : List ℚ) (r : Rnd)
    (hsum : ws.foldl (· + ·) 0 ≠ 0) (hnn : JSVal.jnum .nan ∉ vals) :
    (∀ w ∈ normalizeWeights ws, ∃ q : ℚ, w = .num q) ∧
    ((sampleDistribution M (.discrete vals ws) r).1 ∈ vals ∨
      (sampleDistribution M (.discrete vals ws) r).1 = .jundefined) ∧
    (sampleDistribution M (.discrete vals ws) r).1 ≠ .jnum .nan := by
  have hmem : (sampleDistribution M (.discrete vals ws) r).1 ∈ vals ∨
      (sampleDistribution M (.discrete vals ws) r).1 = .jundefined :=
    getD_mem_or_default vals _ _
  refine ⟨?_, ?_, ?_⟩
  · intro w hw
    rw [normalizeWeights, List.mem_map] at hw
    obtain ⟨x, hx, rfl⟩ := hw
    exact ⟨x / ws.foldl (· + ·) 0, by rw [jsDivQ, if_neg hsum]⟩
  · exact hmem
  · rcases hmem with h | h
    · intro he; exact hnn (he ▸ h)
    · rw [h]; simp

/-- C3, witness: the amended theorem applied to a one-value distribution
with weight 1. -/
theorem c3_witness :
    ([(1 : ℚ)].foldl (· + ·) 0 ≠ 0) ∧ JSVal.jnum .nan ∉ [JSVal.jstr "a"] ∧
    ((∀ w ∈ normalizeWeights [1], ∃ q : ℚ, w = .num q) ∧
     ((sampleDistribution somePlatform (.discrete [.jstr "a"] [1])
         (constRnd 0)).1 ∈ [JSVal.jstr "a"] ∨
       (sampleDistribution somePlatform (.discrete [.jstr "a"] [1])
         (constRnd 0)).1 = .jundefined) ∧
     (sampleDistribution somePlatform (.discrete [.jstr "a"] [1])
       (constRnd 0)).1 ≠ .jnum .nan) :=
  ⟨by norm_num, by simp,
   c3_amended somePlatform [.jstr "a"] [1] (constRnd 0) (by norm_num) (by simp)⟩

/-- The JavaScript comparator sort agrees with insertion sort by the
numeric order on finite values. -/
theorem jsSortInsert_map (x : ℚ) (s : List ℚ) :
    jsSortInsert (.num x) (s.map JSQ.num) =
      (List.orderedInsert (· ≤ ·) x s).map JSQ.num := by
  induction s with
  | nil => rfl
  | cons y t ih =>
      simp only [List.map_cons, jsSortInsert, List.orderedInsert, jsLeB]
      by_cases h : x ≤ y
      · simp [h]
      · simp [h, ih]

/-- The sort model on a list of finite numbers is insertion sort on the
underlying rationals. -/
theorem jsSortNums_map (l : List ℚ) :
    jsSortNums (l.map JSQ.num) = (List.insertionSort (· ≤ ·) l).map JSQ.num := by
  induction l with
  | nil => rfl
  | cons x t ih =>
      simp only [List.map_cons, jsSortNums, List.insertionSort, ih,
        jsSortInsert_map]

/-- Folding JavaScript addition over finite numbers is rational
summation. -/
theorem foldl_jsAdd_map (g : ℚ → ℚ) :
    ∀ (s : List ℚ) (a : ℚ),
      (s.map (fun x => JSQ.num (g x))).foldl jsAdd (.num a) =
        .num (a + (s.map g).sum) := by
  intro s
  induction s with
  | nil => intro a; simp
  | cons x t ih =>
      intro a
      simp only [List.map_cons, List.foldl_cons, jsAdd, List.sum_cons, ih]
      congr 1
      ring

/-- The head of a sorted list bounds every element from below. -/
theorem sorted_head_le (s : List ℚ) (hs : s.Sorted (· ≤ ·)) (x : ℚ)
    (hx : x ∈ s) : s.getD 0 0 ≤ x := by
  cases s with
  | nil => cases hx
  | cons a t =>
      rw [List.getD_cons_zero]
      rcases List.mem_cons.mp hx with rfl | hxt
      · exact le_refl x
      · exact (List.sorted_cons.mp hs).1 x hxt

/-- The last element of a non-empty list is a member. -/
theorem getD_last_mem {α : Type} [Inhabited α] (s : List α) (d : α)
    (h : s ≠ []) : s.getD (s.length - 1) d ∈ s := by
  have hlt : s.length - 1 < s.length := by
    cases s with
    | nil => exact absurd rfl h
    | cons a t => simp
  rw [List.getD_eq_getElem?_getD, List.getElem?_eq_getElem hlt,
    Option.getD_some]
  exact List.getElem_mem hlt

/-- The last element of a sorted list bounds every element from above. -/
theorem sorted_le_last (s : List ℚ) (hs : s.Sorted (· ≤ ·)) (x : ℚ)
    (hx : x ∈ s) : x ≤ s.getD (s.length - 1) 0 := by
  induction s with
  | nil => cases hx
  | cons a t ih =>
      obtain ⟨ha, hts⟩ := List.sorted_cons.mp hs
      cases t with
      | nil =>
          rcases List.mem_cons.mp hx with rfl | hxt
          · exact le_refl x
          · cases hxt
      | cons b t2 =>
          have hstep : (a :: b :: t2).getD ((a :: b :: t2).length - 1) 0 =
              (b :: t2).getD ((b :: t2).length - 1) 0 := by
            simp [List.getD_cons_succ]
          rw [hstep]
          rcases List.mem_cons.mp hx with rfl | hxt
          · exact le_trans
              (ha _ (getD_last_mem (b :: t2) 0 (by simp)))
              (le_refl _)
          · exact ih hts hxt

/-- C6: for a non-empty all-numeric group, calculateStats returns the
arithmetic mean, the median of the ascending-sorted list (middle element
when the count is odd, average of the two middle elements when even), the
smallest and largest elements as min and max, and the platform square root
of the population variance (sum of squared deviations divided by count,
not count - 1) as stdDev.  The sorted list is characterized as any sorted
permutation s of the input. -/
theorem c6_stats (M : JSMath) (l s : List ℚ) (hne : l ≠ [])
    (hperm : s.Perm l) (hsorted : s.Sorted (· ≤ ·)) :
    calculateStats M (l.map (fun q => .jnum (.num q))) =
      .stats ⟨.num (l.sum / l.length),
              .num (if l.length % 2 = 0
                then (s.getD (l.length / 2 - 1) 0 + s.getD (l.length / 2) 0) / 2
                else s.getD (l.length / 2) 0),
              .jnum (.num (s.getD 0 0)),
              .jnum (.num (s.getD (l.length - 1) 0)),
              jsSqrt M (.num
                ((l.map (fun x => (x - l.sum / l.length) ^ 2)).sum / l.length))⟩
    ∧ (∀ x ∈ l, s.getD 0 0 ≤ x ∧ x ≤ s.getD (l.length - 1) 0)
    ∧ s.getD 0 0 ∈ l ∧ s.getD (l.length - 1) 0 ∈ l := by
  have hs : s = List.insertionSort (· ≤ ·) l :=
    List.eq_of_perm_of_sorted
      (hperm.trans (List.perm_insertionSort (· ≤ ·) l).symm) hsorted
      (List.sorted_insertionSort (· ≤ ·) l)
  have hsperm : s.Perm l := hperm
  have hslen : s.length = l.length := hsperm.length_eq
  have hssum : s.sum = l.sum := hsperm.sum_eq
  have hsne : s ≠ [] := by
    intro h0
    apply hne
    have := hsperm.length_eq
    rw [h0] at this
    exact List.eq_nil_of_length_eq_zero this.symm
  have hlpos : 0 < l.length := List.length_pos.mpr hne
  have hlq : (l.length : ℚ) ≠ 0 := Nat.cast_ne_zero.mpr (by omega)
  refine ⟨?_, ?_, ?_, ?_⟩
  · -- the record equality
    have hguard : (l.map (fun q => JSVal.jnum (JSQ.num q))).all isNumberB = true := by
      simp [List.all_map, isNumberB, Function.comp]
    have hvals : (l.map (fun q => JSVal.jnum (JSQ.num q))).map jsToNumber =
        l.map JSQ.num := by
      simp only [List.map_map]
      rfl
    have hsortedeq :
        jsSortNums ((l.map (fun q => JSVal.jnum (JSQ.num q))).map jsToNumber) =
          s.map JSQ.num := by
      rw [hvals, jsSortNums_map, hs]
    have hlen2 : (s.map JSQ.num).length = l.length := by
      rw [List.length_map, hslen]
    have hsum2 : (s.map JSQ.num).foldl jsAdd (.num 0) = .num l.sum := by
      have := foldl_jsAdd_map id s 0
      simp only [List.map_id] at this
      have h2 : s.map (fun x => JSQ.num (id x)) = s.map JSQ.num := rfl
      rw [h2] at this
      rw [this, zero_add, hssum]
    have hmean : jsDiv (.num l.sum) (.num (l.length : ℚ)) =
        .num (l.sum / l.length) := by
      simp only [jsDiv]
      rw [if_neg hlq]
    have hget : ∀ i, i < l.length →
        optNum ((s.map JSQ.num)[i]?) = .num (s.getD i 0) := by
      intro i hi
      have hi2 : i < s.length := by omega
      rw [List.getElem?_map, List.getElem?_eq_getElem hi2]
      simp [optNum, List.getD_eq_getElem?_getD, List.getElem?_eq_getElem hi2]
    simp only [calculateStats, hguard, if_true, hsortedeq, hlen2, hsum2, hmean]
    have hsq : (s.map JSQ.num).map
        (fun v => jsMul (jsSub v (.num (l.sum / l.length)))
          (jsSub v (.num (l.sum / l.length)))) =
        s.map (fun x => JSQ.num ((x - l.sum / l.length) * (x - l.sum / l.length))) := by
      simp only [List.map_map]
      rfl
    have hsqsum : (s.map (fun x =>
        JSQ.num ((x - l.sum / l.length) * (x - l.sum / l.length)))).foldl jsAdd
          (.num 0) =
        .num ((l.map (fun x => (x - l.sum / l.length) ^ 2)).sum) := by
      rw [foldl_jsAdd_map (fun x => (x - l.sum / l.length) * (x - l.sum / l.length)) s 0]
      rw [zero_add]
      congr 1
      have hmapeq : s.map (fun x => (x - l.sum / l.length) * (x - l.sum / l.length)) =
          s.map (fun x => (x - l.sum / l.length) ^ 2) := by
        apply List.map_congr_left
        intro x _
        ring
      rw [hmapeq]
      exact (hsperm.map (fun x => (x - l.sum / l.length) ^ 2)).sum_eq
    rw [hsq, hsqsum]
    have hsqlen : (s.map (fun x =>
        JSQ.num ((x - l.sum / l.length) * (x - l.sum / l.length)))).length =
        l.length := by
      rw [List.length_map, hslen]
    rw [hsqlen]
    have havg : jsDiv (.num ((l.map (fun x => (x - l.sum / l.length) ^ 2)).sum))
        (.num (l.length : ℚ)) =
        .num ((l.map (fun x => (x - l.sum / l.length) ^ 2)).sum / l.length) := by
      simp only [jsDiv]
      rw [if_neg hlq]
    rw [havg]
    obtain ⟨a, t, rfl⟩ := List.exists_cons_of_ne_nil hsne
    have hlast : ((a :: t).map JSQ.num)[l.length - 1]? =
        some (.num ((a :: t).getD (l.length - 1) 0)) := by
      have hlt : l.length - 1 < (a :: t).length := by
        rw [hslen]; omega
      rw [List.getElem?_map, List.getElem?_eq_getElem hlt]
      simp [List.getD_eq_getElem?_getD, List.getElem?_eq_getElem hlt]
    rw [hlast]
    by_cases hpar : l.length % 2 = 0
    · have hge2 : 2 ≤ l.length := by omega
      have hi1 : l.length / 2 - 1 < l.length := by omega
      have hi2 : l.length / 2 < l.length := by omega
      rw [if_pos hpar, if_pos hpar, hget _ hi1, hget _ hi2]
      simp only [jsAdd, jsDiv]
      rw [if_neg (by norm_num : ¬(2 : ℚ) = 0)]
      rfl
    · have hi2 : l.length / 2 < l.length := by omega
      rw [if_neg hpar, if_neg hpar, hget _ hi2]
      rfl
  · intro x hx
    have hxs : x ∈ s := hsperm.mem_iff.mpr hx
    constructor
    · exact sorted_head_le s hsorted x hxs
    · have := sorted_le_last s hsorted x hxs
      rw [hslen] at this
      exact this
  · apply hsperm.mem_iff.mp
    obtain ⟨a, t, rfl⟩ := List.exists_cons_of_ne_nil hsne
    simp [List.getD_cons_zero]
  · apply hsperm.mem_iff.mp
    have := getD_last_mem s 0 hsne
    rw [hslen] at this
    exact this

/-- C6, witness: the statistics theorem applied to the concrete group
[3, 1], whose sorted permutation is [1, 3]. -/
theorem c6_witness :
    ([3, 1] : List ℚ) ≠ [] ∧ List.Perm ([1, 3] : List ℚ) [3, 1] ∧
    List.Sorted (· ≤ ·) ([1, 3] : List ℚ) ∧
    (calculateStats somePlatform
        (([3, 1] : List ℚ).map (fun q => .jnum (.num q))) =
      .stats ⟨.num (([3, 1] : List ℚ).sum / ([3, 1] : List ℚ).length),
              .num (if ([3, 1] : List ℚ).length % 2 = 0
                then (([1, 3] : List ℚ).getD (([3, 1] : List ℚ).length / 2 - 1) 0 +
                  ([1, 3] : List ℚ).getD (([3, 1] : List ℚ).length / 2) 0) / 2
                else ([1, 3] : List ℚ).getD (([3, 1] : List ℚ).length / 2) 0),
              .jnum (.num (([1, 3] : List ℚ).getD 0 0)),
              .jnum (.num
                (([1, 3] : List ℚ).getD (([3, 1] : List ℚ).length - 1) 0)),
              jsSqrt somePlatform (.num
                ((([3, 1] : List ℚ).map (fun x =>
                  (x - ([3, 1] : List ℚ).sum / ([3, 1] : List ℚ).length) ^ 2)).sum /
                  ([3, 1] : List ℚ).length))⟩
    ∧ (∀ x ∈ ([3, 1] : List ℚ), ([1, 3] : List ℚ).getD 0 0 ≤ x ∧
        x ≤ ([1, 3] : List ℚ).getD (([3, 1] : List ℚ).length - 1) 0)
    ∧ ([1, 3] : List ℚ).getD 0 0 ∈ ([3, 1] : List ℚ)
    ∧ ([1, 3] : List ℚ).getD (([3, 1] : List ℚ).length - 1) 0 ∈
        ([3, 1] : List ℚ)) :=
  ⟨by simp, (List.Perm.swap 1 3 []).symm, by norm_num [List.sorted_cons],
   c6_stats somePlatform [3, 1] [1, 3] (by simp)
     ((List.Perm.swap 1 3 []).symm) (by norm_num [List.sorted_cons])⟩

/-- Bumping a key reads back one higher. -/
theorem getR_bumpR_self (m : Record ℕ) (k : String) :
    getR (bumpR m k) k = some ((getR m k).getD 0 + 1) := by
  induction m with
  | nil => simp [bumpR, getR]
  | cons h t ih =>
      obtain ⟨k1, c⟩ := h
      by_cases hk : k1 = k <;> simp [bumpR, getR, hk, ih]

/-- Bumping a key leaves other keys unchanged. -/
theorem getR_bumpR_other (m : Record ℕ) (k k1 : String) (h : k ≠ k1) :
    getR (bumpR m k) k1 = getR m k1 := by
  induction m with
  | nil => simp [bumpR, getR, h]
  | cons hd t ih =>
      obtain ⟨k2, c⟩ := hd
      by_cases hk : k2 = k
      · subst hk; simp [bumpR, getR, h]
      · simp [bumpR, getR, hk, ih]

/-- Bumping preserves the key list or appends the fresh key at the end. -/
theorem keys_bumpR (m : Record ℕ) (k : String) :
    (bumpR m k).map Prod.fst =
      if k ∈ m.map Prod.fst then m.map Prod.fst else m.map Prod.fst ++ [k] := by
  induction m with
  | nil => simp [bumpR]
  | cons hd t ih =>
      obtain ⟨k2, c⟩ := hd
      by_cases hk : k2 = k
      · subst hk; simp [bumpR]
      · have : ¬k = k2 := fun he => hk he.symm
        simp [bumpR, hk, ih, this]
        by_cases hmem : k ∈ t.map Prod.fst <;> simp [hmem, this]

/-- Bumping adds one to the total count. -/
theorem sum_bumpR (m : Record ℕ) (k : String) :
    ((bumpR m k).map Prod.snd).sum = (m.map Prod.snd).sum + 1 := by
  induction m with
  | nil => simp [bumpR]
  | cons hd t ih =>
      obtain ⟨k2, c⟩ := hd
      by_cases hk : k2 = k <;> simp [bumpR, hk, ih] <;> omega

/-- The frequency fold counts exactly the occurrences of each rendered
label. -/
theorem getR_freqFold (vs : List JSVal) :
    ∀ (m : Record ℕ) (k : String),
      (getR (vs.foldl (fun m v => bumpR m (jsString v)) m) k).getD 0 =
        (getR m k).getD 0 + vs.countP (fun v => jsString v == k) := by
  induction vs with
  | nil => intro m k; simp
  | cons v t ih =>
      intro m k
      simp only [List.foldl_cons, List.countP_cons, ih]
      by_cases hk : jsString v = k
      · rw [hk, getR_bumpR_self]
        simp [hk]
        omega
      · rw [getR_bumpR_other _ _ _ hk]
        simp [hk]

/-- A key is present after the frequency fold iff it was present before or
occurs among the rendered labels. -/
theorem mem_keys_freqFold (vs : List JSVal) :
    ∀ (m : Record ℕ) (k : String),
      (k ∈ (vs.foldl (fun m v => bumpR m (jsString v)) m).map Prod.fst ↔
        k ∈ m.map Prod.fst ∨ k ∈ vs.map jsString) := by
  induction vs with
  | nil => intro m k; simp
  | cons v t ih =>
      intro m k
      simp only [List.foldl_cons, List.map_cons, List.mem_cons, ih, keys_bumpR]
      by_cases hmem : jsString v ∈ m.map Prod.fst
      · simp only [if_pos hmem]
        constructor
        · intro h; tauto
        · rintro (h | h | h)
          · tauto
          · left; rw [h]; exact hmem
          · tauto
      · simp only [if_neg hmem, List.mem_append, List.mem_singleton]
        constructor
        · rintro ((h | h) | h) <;> tauto
        · rintro (h | h | h) <;> tauto

/-- The frequency fold keeps the key list duplicate-free. -/
theorem nodup_keys_freqFold (vs : List JSVal) :
    ∀ (m : Record ℕ), (m.map Prod.fst).Nodup →
      ((vs.foldl (fun m v => bumpR m (jsString v)) m).map Prod.fst).Nodup := by
  induction vs with
  | nil => intro m h; exact h
  | cons v t ih =>
      intro m h
      simp only [List.foldl_cons]
      apply ih
      rw [keys_bumpR]
      by_cases hmem : jsString v ∈ m.map Prod.fst
      · simpa [hmem] using h
      · simp only [if_neg hmem]
        simpa [List.nodup_append, hmem] using h

/-- The frequency fold accumulates the total number of values. -/
theorem sum_freqFold (vs : List JSVal) :
    ∀ (m : Record ℕ),
      (((vs.foldl (fun m v => bumpR m (jsString v)) m)).map Prod.snd).sum =
        (m.map Prod.snd).sum + vs.length := by
  induction vs with
  | nil => intro m; simp
  | cons v t ih =>
      intro m
      simp only [List.foldl_cons, List.length_cons, ih, sum_bumpR]
      omega

/-- Under unique keys, a record pair read back through getR. -/
theorem getR_of_mem (m : Record ℕ) (kv : String × ℕ) (hmem : kv ∈ m)
    (hnd : (m.map Prod.fst).Nodup) : getR m kv.1 = some kv.2 := by
  induction m with
  | nil => cases hmem
  | cons hd t ih =>
      obtain ⟨k2, c⟩ := hd
      rw [List.map_cons, List.nodup_cons] at hnd
      rcases List.mem_cons.mp hmem with rfl | hmt
      · simp [getR]
      · have hk : ¬k2 = kv.1 := by
          intro he
          have hmm : kv.1 ∈ t.map Prod.fst := List.mem_map_of_mem Prod.fst hmt
          rw [← he] at hmm
          exact hnd.1 hmm
        simp only [getR, if_neg hk]
        exact ih hmt hnd.2

/-- C10: a non-empty group containing at least one non-numeric value is
reported categorically: the frequencies record maps each observed rendered
label to occurrences-of-that-label divided by the total count, every such
relative frequency lies in (0, 1], the relative frequencies sum to exactly
1, and the labels are exactly the rendered forms of the observed values. -/
theorem c10_categorical (M : JSMath) (values : List JSVal) (hne : values ≠ [])
    (v0 : JSVal) (hv0 : v0 ∈ values) (hnn : isNumberB v0 = false) :
    calculateStats M values =
      .freqs ((buildFreqs values).map (fun kv =>
        (kv.1, jsDivQ (kv.2 : ℚ) (values.length : ℚ)))) ∧
    ((buildFreqs values).map Prod.fst).Nodup ∧
    (∀ kv ∈ buildFreqs values,
      kv.2 = values.countP (fun v => jsString v == kv.1) ∧
      jsDivQ (kv.2 : ℚ) (values.length : ℚ) =
        .num ((kv.2 : ℚ) / (values.length : ℚ)) ∧
      0 < (kv.2 : ℚ) / (values.length : ℚ) ∧
      (kv.2 : ℚ) / (values.length : ℚ) ≤ 1) ∧
    ((buildFreqs values).map (fun kv => (kv.2 : ℚ))).sum /
      (values.length : ℚ) = 1 ∧
    (∀ k : String, k ∈ (buildFreqs values).map Prod.fst ↔
      k ∈ values.map jsString) := by
  have hguard : values.all isNumberB = false := by
    rw [List.all_eq_false]
    exact ⟨v0, hv0, by simp [hnn]⟩
  have hlpos : 0 < values.length := List.length_pos.mpr hne
  have hlq : (values.length : ℚ) ≠ 0 := Nat.cast_ne_zero.mpr (by omega)
  have hnd : ((buildFreqs values).map Prod.fst).Nodup :=
    nodup_keys_freqFold values [] (by simp)
  refine ⟨?_, hnd, ?_, ?_, ?_⟩
  · simp [calculateStats, hguard]
  · intro kv hkv
    have hcount : kv.2 = values.countP (fun v => jsString v == kv.1) := by
      have h1 : getR (buildFreqs values) kv.1 = some kv.2 :=
        getR_of_mem _ kv hkv hnd
      have h2 := getR_freqFold values [] kv.1
      rw [buildFreqs] at h1
      rw [h1] at h2
      simpa [getR] using h2
    have hpos : 0 < kv.2 := by
      have hk : kv.1 ∈ (buildFreqs values).map Prod.fst :=
        List.mem_map_of_mem Prod.fst hkv
      have := (mem_keys_freqFold values [] kv.1).mp hk
      simp only [List.map_nil, List.not_mem_nil, false_or] at this
      rw [List.mem_map] at this
      obtain ⟨v, hv, hvk⟩ := this
      rw [hcount]
      rw [List.countP_pos_iff]
      exact ⟨v, hv, by simp [hvk]⟩
    have hle : kv.2 ≤ values.length := by
      rw [hcount]
      exact List.countP_le_length _
    refine ⟨hcount, ?_, ?_, ?_⟩
    · rw [jsDivQ, if_neg hlq]
    · apply div_pos
      · exact_mod_cast hpos
      · exact_mod_cast hlpos
    · rw [div_le_one (by exact_mod_cast hlpos)]
      exact_mod_cast hle
  · have hsum : ((buildFreqs values).map Prod.snd).sum = values.length := by
      have := sum_freqFold values []
      simpa [buildFreqs] using this
    have hcast : ((buildFreqs values).map (fun kv => (kv.2 : ℚ))).sum =
        (((buildFreqs values).map Prod.snd).sum : ℚ) := by
      rw [Nat.cast_list_sum, List.map_map]
      rfl
    rw [hcast, hsum, div_self hlq]
  · intro k
    have := mem_keys_freqFold values [] k
    simpa using this

/-- C10, witness: the categorical theorem applied to the concrete group
holding the string a and the boolean true. -/
theorem c10_witness :
    ([JSVal.jstr "a", .jbool true] : List JSVal) ≠ [] ∧
    JSVal.jstr "a" ∈ ([JSVal.jstr "a", .jbool true] : List JSVal) ∧
    isNumberB (.jstr "a") = false ∧
    (calculateStats somePlatform [JSVal.jstr "a", .jbool true] =
      .freqs ((buildFreqs [JSVal.jstr "a", .jbool true]).map (fun kv =>
        (kv.1, jsDivQ (kv.2 : ℚ)
          (([JSVal.jstr "a", .jbool true] : List JSVal).length : ℚ)))) ∧
    ((buildFreqs [JSVal.jstr "a", .jbool true]).map Prod.fst).Nodup ∧
    (∀ kv ∈ buildFreqs [JSVal.jstr "a", .jbool true],
      kv.2 = ([JSVal.jstr "a", .jbool true] : List JSVal).countP
          (fun v => jsString v == kv.1) ∧
      jsDivQ (kv.2 : ℚ) (([JSVal.jstr "a", .jbool true] : List JSVal).length : ℚ) =
        .num ((kv.2 : ℚ) /
          (([JSVal.jstr "a", .jbool true] : List JSVal).length : ℚ)) ∧
      0 < (kv.2 : ℚ) /
        (([JSVal.jstr "a", .jbool true] : List JSVal).length : ℚ) ∧
      (kv.2 : ℚ) /
        (([JSVal.jstr "a", .jbool true] : List JSVal).length : ℚ) ≤ 1) ∧
    ((buildFreqs [JSVal.jstr "a", .jbool true]).map (fun kv => (kv.2 : ℚ))).sum /
      (([JSVal.jstr "a", .jbool true] : List JSVal).length : ℚ) = 1 ∧
    (∀ k : String, k ∈ (buildFreqs [JSVal.jstr "a", .jbool true]).map Prod.fst ↔
      k ∈ ([JSVal.jstr "a", .jbool true] : List JSVal).map jsString)) :=
  ⟨by simp, by simp, rfl,
   c10_categorical somePlatform [JSVal.jstr "a", .jbool true] (by simp)
     (.jstr "a") (by simp) rfl⟩

/-- Adding zero on the left is the identity of JavaScript addition. -/
theorem jsAdd_zero_left (w : JSQ) : jsAdd (.num 0) w = w := by
  cases w <;> simp [jsAdd]

/-- The cdf-building reduce appends each weight unchanged: at step i the
accumulator has exactly i elements, so `acc[i] || 0` is always 0. -/
theorem buildCdfGo_append : ∀ (rest acc : List JSQ),
    buildCdfGo acc acc.length rest = acc ++ rest := by
  intro rest
  induction rest with
  | nil => intro acc; simp [buildCdfGo]
  | cons w t ih =>
      intro acc
      rw [buildCdfGo]
      have hnone : acc[acc.length]? = none := by simp
      rw [hnone]
      have hz : jsAdd (jsOrZero none) w = w := by
        simp [jsOrZero, jsAdd_zero_left]
      rw [hz]
      have hlen : acc.length + 1 = (acc ++ [w]).length := by simp
      rw [hlen, ih (acc ++ [w])]
      simp

/-- The array the discrete sampler calls its cumulative distribution
function is not cumulative at all: the reduce returns the normalized
weights unchanged. -/
theorem buildCdf_eq_self (ws : List JSQ) : buildCdf ws = ws := by
  have := buildCdfGo_append ws []
  simpa [buildCdf] using this
